import Mathlib

/-!
Verification of the Apple-product scraper (`apple_scrape.py`).

The Python program scrapes a wiki timeline table, normalizes rows into
name-keyed records (carrying rowspan dates, mapping background colors to
categories, capped at 25 new entries per run), caches them in a JSON file,
and mirrors them into two SQLite tables with insert-or-ignore semantics.

This file gives a shallow embedding of that program and proves properties
of it.  HTML rows become a `Row` structure, the JSON store becomes an
association list, string helpers mirror Python's `rstrip`/`upper`, the
filesystem becomes a partial map from paths to contents, and the SQL
tables become lists with explicit insert-or-ignore operations.  Fatal
runtime errors (a data-bearing row with no hyperlink, a failed category
lookup) are modelled by `Option`.
-/


namespace AppleScrape

/-- Python's `str.rstrip()`: drop trailing whitespace. -/
def pyRstrip (s : String) : String :=
  ⟨(s.data.reverse.dropWhile Char.isWhitespace).reverse⟩

/-- Python's `str.upper()` on the ASCII range used by the color codes. -/
def pyUpper (s : String) : String :=
  ⟨s.data.map Char.toUpper⟩

/-- Embedding of `color_code_lookup` (lines 56-78): the chain of string
comparisons mapping a background-color code to a category label, with the
sentinel `"N/A"` for anything unrecognized. -/
def color_code_lookup (color_code : String) : String :=
  if color_code = "#FFFF79" ∨ color_code = "FFFF79" then "Apple 1/2/2GS/3"
  else if color_code = "#81D666" ∨ color_code = "81D666" then "Lisa"
  else if color_code = "#95CEFE" ∨ color_code = "95CEFE" then "Macintosh"
  else if color_code = "#8BFFA3" ∨ color_code = "8BFFA3" then "Network Server"
  else if color_code = "#CCFF99" ∨ color_code = "CCFF99" ∨ color_code = "#CF9" then
    "Phones/Tablets/PDAs"
  else if color_code = "#FFE5E5" ∨ color_code = "FFE5E5" then "iPod/Consumer Products"
  else if color_code = "#D8D8F2" ∨ color_code = "D8D8F2" then "Computer Peripherals"
  else "N/A"

/-- The fixed color→category table: the seven six-digit color tokens and the
category each denotes, as listed in `color_code_lookup`. -/
def color_table : List (String × String) :=
  [("FFFF79", "Apple 1/2/2GS/3"),
   ("81D666", "Lisa"),
   ("95CEFE", "Macintosh"),
   ("8BFFA3", "Network Server"),
   ("CCFF99", "Phones/Tablets/PDAs"),
   ("FFE5E5", "iPod/Consumer Products"),
   ("D8D8F2", "Computer Peripherals")]

/-- Every color-code string recognized by some branch of `color_code_lookup`. -/
def recognized_codes : List String :=
  ["#FFFF79", "FFFF79", "#81D666", "81D666", "#95CEFE", "95CEFE",
   "#8BFFA3", "8BFFA3", "#CCFF99", "CCFF99", "#CF9",
   "#FFE5E5", "FFE5E5", "#D8D8F2", "D8D8F2"]

/-- The normalization applied to a row's `bgcolor` attribute before lookup
(line 100): `row['bgcolor'].rstrip().upper()`. -/
def normColor (s : String) : String := pyUpper (pyRstrip s)

/-- A `td` cell of a table row: its optional `rowspan` attribute and its text. -/
structure Cell where
  rowspan : Option Nat
  text : String
deriving DecidableEq, Repr

/-- A `tr` element selected by `find_all('tr', bgcolor=True)`: its `bgcolor`
attribute, its first `td` cell (if any), and the text of its first hyperlink
(if any). -/
structure Row where
  bgcolor : String
  td : Option Cell
  a : Option String
deriving DecidableEq, Repr

/-- The value stored per product: `{"release date": ..., "category": ...}`. -/
structure EntryDetails where
  releaseDate : String
  category : String
deriving DecidableEq, Repr

/-- The JSON store: a name-keyed dictionary, modelled as an association list
in insertion order. -/
abbrev Store := List (String × EntryDetails)

/-- Python `dict.get`: the value at the first matching key, if present. -/
def dictGet (d : Store) (k : String) : Option EntryDetails :=
  match d with
  | [] => none
  | (k', v) :: rest => if k = k' then some v else dictGet rest k

/-- The loop variables of `add_25_entries` (lines 90-92) together with the
mutated dictionary. -/
structure LoopState where
  rowspan : Nat
  rowspanDate : String
  entriesAdded : Nat
  data : Store
deriving DecidableEq, Repr

/-- The body of the `for row in table_list` loop (lines 94-128), without the
break check.  `none` models the fatal `AttributeError` raised when a row has
a first cell but no hyperlink (`row_name` is `None` at line 111/119). -/
def processRow (row : Row) (s : LoopState) : Option LoopState :=
  let row_category := color_code_lookup (normColor row.bgcolor)
  match row.td with
  | none => some s
  | some cell =>
    let rowspan1 := match cell.rowspan with
      | some n => n
      | none => s.rowspan
    let rowspanDate1 := match cell.rowspan with
      | some _ => pyRstrip cell.text
      | none => s.rowspanDate
    match row.a with
    | none => none
    | some link =>
      let entry_name := pyRstrip link
      let p :=
        if rowspan1 ≠ 0 then
          (rowspan1 - 1, EntryDetails.mk rowspanDate1 row_category)
        else
          (rowspan1, EntryDetails.mk (pyRstrip cell.text) row_category)
      if (dictGet s.data entry_name).isNone then
        some ⟨p.1, rowspanDate1, s.entriesAdded + 1, s.data ++ [(entry_name, p.2)]⟩
      else
        some ⟨p.1, rowspanDate1, s.entriesAdded, s.data⟩

/-- The loop of `add_25_entries`: process each row in order, stopping early
once 25 entries have been added in this invocation (lines 132-133). -/
def add_25_go : List Row → LoopState → Option LoopState
  | [], s => some s
  | row :: rest, s =>
    match processRow row s with
    | none => none
    | some s' =>
      if s'.entriesAdded ≥ 25 then some s' else add_25_go rest s'

/-- Embedding of `add_25_entries` (lines 80-135): returns the mutated store
together with the number of entries added, or `none` on the fatal
missing-hyperlink error. -/
def add_25_entries (rows : List Row) (data : Store) : Option (Store × Nat) :=
  match add_25_go rows ⟨0, "", 0, data⟩ with
  | none => none
  | some s => some (s.data, s.entriesAdded)

/-- The fixed category list of `SQL_create_categories` (line 168). -/
def categories : List String :=
  ["Apple 1/2/2GS/3", "Lisa", "Macintosh", "Network Server",
   "Phones/Tablets/PDAs", "iPod/Consumer Products", "Computer Peripherals"]

/-- `INSERT OR IGNORE INTO Apple_Categories (id, category) VALUES (?,?)`:
with `id` a primary key and `category` unique, the row is inserted only if
neither value already occurs. -/
def insertOrIgnoreCategory (table : List (Nat × String)) (id : Nat) (cat : String) :
    List (Nat × String) :=
  if table.any (fun r => r.1 = id ∨ r.2 = cat) then table else table ++ [(id, cat)]

/-- Embedding of `SQL_create_categories` (lines 161-175): seed the category
table with ids `0..6` over the fixed list. -/
def SQL_create_categories (table : List (Nat × String)) : List (Nat × String) :=
  categories.enum.foldl (fun t p => insertOrIgnoreCategory t p.1 p.2) table

/-- A row of the `Apple_Products` table (the implicit integer primary key is
the list position and is not modelled). -/
structure Product where
  name : String
  release_date : String
  category : Nat
deriving DecidableEq, Repr

/-- `SELECT id FROM Apple_Categories WHERE category = (?)` followed by
`fetchone()`: the id of the first row whose category matches, if any. -/
def lookupCategoryId (cats : List (Nat × String)) (label : String) : Option Nat :=
  (cats.find? (fun r => r.2 = label)).map Prod.fst

/-- `INSERT OR IGNORE INTO Apple_Products (name, release_date, category)`:
with `name` unique, the row is inserted only if the name is absent. -/
def insertOrIgnoreProduct (prods : List Product) (p : Product) : List Product :=
  if prods.any (fun q => q.name = p.name) then prods else prods ++ [p]

/-- Embedding of `SQL_update_database` (lines 177-195): for each record, look
up its category id — `fetchone()[0]` raises (modelled `none`) when the label
has no row — then insert-or-ignore the product row. -/
def SQL_update_database (cats : List (Nat × String)) (prods : List Product) :
    Store → Option (List Product)
  | [] => some prods
  | (name, det) :: rest =>
    match lookupCategoryId cats det.category with
    | none => none
    | some cid =>
      SQL_update_database cats (insertOrIgnoreProduct prods ⟨name, det.releaseDate, cid⟩) rest

/-- Whether a path string is absolute (`os.path.isabs`). -/
def isAbsolute (f : String) : Bool :=
  match f.data with
  | [] => false
  | c :: _ => c = '/'

/-- Whether a path string ends with the separator. -/
def endsWithSep (s : String) : Bool :=
  match s.data.reverse with
  | [] => false
  | c :: _ => c = '/'

/-- `os.path.join(a, b)` for a single pair of POSIX path components. -/
def pathJoin (a b : String) : String :=
  if isAbsolute b then b
  else if a = "" ∨ endsWithSep a then a ++ b
  else a ++ "/" ++ b

/-- The path read by `load_JSON` (lines 34-35): the filename joined to the
directory of the source file. -/
def loadPath (scriptDir filename : String) : String := pathJoin scriptDir filename

/-- The path written by `write_JSON` (line 53): `open(filename, 'w')` resolves
the bare filename against the process working directory. -/
def writePath (cwd filename : String) : String := pathJoin cwd filename

/-- Embedding of `load_JSON` (lines 25-44) over an explicit filesystem
(`fs` maps absolute paths to file contents) and JSON decoder `parse`.  The
bare `except:` turns any failure — missing file or undecodable contents —
into the empty dictionary. -/
def load_JSON (fs : String → Option String) (parse : String → Option Store)
    (scriptDir filename : String) : Store :=
  match fs (loadPath scriptDir filename) with
  | none => []
  | some content =>
    match parse content with
    | none => []
    | some d => d

/-- Embedding of `write_JSON` (lines 46-54): overwrite the file at the
cwd-relative path with the serialized store, returning the new filesystem. -/
def write_JSON (fs : String → Option String) (cwd filename : String)
    (ser : Store → String) (data : Store) : String → Option String :=
  fun p => if p = writePath cwd filename then some (ser data) else fs p



/-- A data row with no rowspan attribute: first-cell text `p.2`, hyperlink
text `p.1`. -/
def mkRow (bg : String) (p : String × String) : Row :=
  ⟨bg, some ⟨none, p.2⟩, some p.1⟩

/-- A row whose first cell declares a span count `n` and carries date text
`d`, with hyperlink text `nm`. -/
def spanRow (bg : String) (n : Nat) (d nm : String) : Row :=
  ⟨bg, some ⟨some n, d⟩, some nm⟩

/-- The records the normalizer produces for a run of rowspan-free rows
entered with remaining-span counter `k` and carried date `d`. -/
def expectedEntries (cat : String) : Nat → String → List (String × String) → Store
  | _, _, [] => []
  | k, d, (nm, t) :: rest =>
    (pyRstrip nm, ⟨if k ≠ 0 then d else pyRstrip t, cat⟩) :: expectedEntries cat (k - 1) d rest

lemma string_append_data (a b : String) : (a ++ b).data = a.data ++ b.data := rfl

/-- Claim C9: a row that itself declares a rowspan attribute unconditionally replaces the carry state, whatever the previous counter and date were: afterwards the carried date is that row's trimmed cell text and the counter is the declared count less the one consumed by the row itself, so the remainder of any earlier span is abandoned. -/
theorem claim_C9 (row : Row) (cell : Cell) (n : Nat) (link : String) (s : LoopState)
    (h1 : row.td = some cell) (h2 : cell.rowspan = some n) (h3 : row.a = some link) :
    ∃ s', processRow row s = some s' ∧ s'.rowspan = n - 1 ∧
      s'.rowspanDate = pyRstrip cell.text := by
  simp only [processRow, h1, h2, h3]
  by_cases hn : n = 0
  · subst hn
    simp only [ne_eq, not_true_eq_false, if_false, reduceIte]
    by_cases hd : (dictGet s.data (pyRstrip link)).isNone
    · exact ⟨_, by rw [if_pos hd], rfl, rfl⟩
    · exact ⟨_, by rw [if_neg hd], rfl, rfl⟩
  · simp only [ne_eq, hn, not_false_iff, if_true, reduceIte]
    by_cases hd : (dictGet s.data (pyRstrip link)).isNone
    · exact ⟨_, by rw [if_pos hd], rfl, rfl⟩
    · exact ⟨_, by rw [if_neg hd], rfl, rfl⟩

theorem claim_C9_witness :
    ∃ s', processRow ⟨"FFFF79", some ⟨some 3, "2001 "⟩, some "iPod"⟩ ⟨7, "1999", 0, []⟩ = some s' ∧
      s'.rowspan = 3 - 1 ∧ s'.rowspanDate = pyRstrip "2001 " :=
  claim_C9 _ ⟨some 3, "2001 "⟩ 3 "iPod" _ rfl rfl rfl

/-- Claim C4: for each of the seven tokens of the fixed color table, the lookup applied to the normalized row attribute is case-insensitive and insensitive to the leading marker: every color string normalizing to the token, with or without a leading `#`, maps to that token's category. -/
theorem claim_C4 (t c : String) (htc : (t, c) ∈ color_table) (s : String)
    (hs : normColor s = t ∨ normColor s = "#" ++ t) :
    color_code_lookup (normColor s) = c := by
  fin_cases htc <;> rcases hs with h | h <;> rw [h] <;> decide

theorem claim_C4_witness :
    color_code_lookup (normColor "#81d666 ") = "Lisa" :=
  claim_C4 "81D666" "Lisa" (by decide) "#81d666 " (Or.inr (by decide))

/-- Claim C5: an unrecognized color code maps to the sentinel "N/A" instead of failing, while `SQL_update_database` aborts (the uncaught `fetchone` failure, modelled as `none`) whenever some record's category label has no row in the category table. -/
theorem claim_C5 :
    (∀ s : String, s ∉ recognized_codes → color_code_lookup s = "N/A") ∧
    (∀ (cats : List (Nat × String)) (prods : List Product) (data : Store),
      (∃ p ∈ data, ∀ c ∈ cats, c.2 ≠ p.2.category) →
      SQL_update_database cats prods data = none) := by
  constructor
  · intro s h
    simp only [recognized_codes, List.mem_cons, List.not_mem_nil, or_false, not_or] at h
    obtain ⟨h1, h2, h3, h4, h5, h6, h7, h8, h9, h10, h11, h12, h13, h14, h15⟩ := h
    simp [color_code_lookup, h1, h2, h3, h4, h5, h6, h7, h8, h9, h10, h11, h12, h13, h14, h15]
  · intro cats prods data h
    induction data generalizing prods with
    | nil => rcases h with ⟨p, hp, _⟩; exact absurd hp (List.not_mem_nil p)
    | cons hd tl ih =>
      obtain ⟨name, det⟩ := hd
      rcases h with ⟨p, hp, hbad⟩
      rcases List.mem_cons.mp hp with heq | hp'
      · subst heq
        have hnone : lookupCategoryId cats det.category = none := by
          rw [lookupCategoryId, Option.map_eq_none', List.find?_eq_none]
          intro x hx
          simpa using hbad x hx
        simp [SQL_update_database, hnone]
      · cases hl : lookupCategoryId cats det.category with
        | none => simp [SQL_update_database, hl]
        | some cid =>
          simp only [SQL_update_database, hl]
          exact ih _ ⟨p, hp', hbad⟩

theorem claim_C5_witness :
    color_code_lookup "ZZZ" = "N/A" ∧
    SQL_update_database [(0, "Lisa")] [] [("x", ⟨"1983", "N/A"⟩)] = none :=
  ⟨claim_C5.1 "ZZZ" (by decide),
   claim_C5.2 [(0, "Lisa")] [] [("x", ⟨"1983", "N/A"⟩)]
     ⟨("x", ⟨"1983", "N/A"⟩), by decide, by decide⟩⟩

/-- Claim C7: end-to-end example — the row with bgcolor "81D666", cell text "1983" and link text "Lisa" normalizes, from the empty store, to the single record "Lisa" ↦ (release date "1983", category "Lisa"); the seeded category table contains the row (1, "Lisa") and the relational mirror inserts the product row ("Lisa", "1983", 1) referencing it. -/
theorem claim_C7 :
    add_25_entries [⟨"81D666", some ⟨none, "1983"⟩, some "Lisa"⟩] []
      = some ([("Lisa", ⟨"1983", "Lisa"⟩)], 1) ∧
    (1, "Lisa") ∈ SQL_create_categories [] ∧
    SQL_update_database (SQL_create_categories []) [] [("Lisa", ⟨"1983", "Lisa"⟩)]
      = some [⟨"Lisa", "1983", 1⟩] ∧
    lookupCategoryId (SQL_create_categories []) "Lisa" = some 1 := by
  refine ⟨by decide, by decide, by decide, by decide⟩

/-- Claim C8: `load_JSON` does not fail on a missing file or on contents the JSON decoder rejects; in both cases it returns the empty store. -/
theorem claim_C8 (fs : String → Option String) (parse : String → Option Store)
    (sdir fn : String)
    (h : fs (loadPath sdir fn) = none ∨
      ∃ c, fs (loadPath sdir fn) = some c ∧ parse c = none) :
    load_JSON fs parse sdir fn = [] := by
  unfold load_JSON
  rcases h with h | ⟨c, hc, hp⟩
  · rw [h]
  · rw [hc]
    dsimp only
    rw [hp]

theorem claim_C8_witness :
    load_JSON (fun _ => none) (fun _ => none) "/src" "apple_products.json" = [] :=
  claim_C8 _ _ _ _ (Or.inl rfl)

/-- Claim C10: `load_JSON` resolves the filename against the script directory while `write_JSON` resolves it against the process working directory, so in any run where the two directories differ (ordinary absolute directories, relative filename) the path written is not the path read, and a load following a write of the same filename does not see the written data. -/
theorem claim_C10 (cwd sdir fn : String)
    (hrel : isAbsolute fn = false)
    (hc1 : cwd ≠ "") (hc2 : endsWithSep cwd = false)
    (hs1 : sdir ≠ "") (hs2 : endsWithSep sdir = false)
    (hne : cwd ≠ sdir)
    (ser : Store → String) (parse : String → Option Store) (data : Store) :
    writePath cwd fn ≠ loadPath sdir fn ∧
    load_JSON (write_JSON (fun _ => none) cwd fn ser data) parse sdir fn = [] := by
  have hpaths : writePath cwd fn ≠ loadPath sdir fn := by
    simp only [writePath, loadPath, pathJoin, hrel, hc1, hc2, hs1, hs2, Bool.false_eq_true,
      if_false, or_self, or_false]
    intro heq
    apply hne
    have hd : (cwd ++ "/" ++ fn).data = (sdir ++ "/" ++ fn).data := congrArg String.data heq
    rw [string_append_data, string_append_data, string_append_data, string_append_data] at hd
    have h1 := List.append_cancel_right hd
    have h2 := List.append_cancel_right h1
    exact String.ext h2
  refine ⟨hpaths, ?_⟩
  unfold load_JSON write_JSON
  rw [if_neg fun e => hpaths e.symm]

theorem claim_C10_witness :
    writePath "/home/user" "apple_products.json" ≠ loadPath "/opt/src" "apple_products.json" ∧
    load_JSON (write_JSON (fun _ => none) "/home/user" "apple_products.json" (fun _ => "x")
      [("Lisa", ⟨"1983", "Lisa"⟩)]) (fun _ => none) "/opt/src" "apple_products.json" = [] :=
  claim_C10 "/home/user" "/opt/src" "apple_products.json" (by decide) (by decide) (by decide)
    (by decide) (by decide) (by decide) _ _ _



lemma dictGet_append (d e : Store) (k : String) :
    dictGet (d ++ e) k = match dictGet d k with
      | some v => some v
      | none => dictGet e k := by
  induction d with
  | nil => rfl
  | cons hd tl ih =>
    obtain ⟨k', v'⟩ := hd
    by_cases hk : k = k'
    · simp [dictGet, hk]
    · simp [dictGet, hk, ih]

lemma dictGet_eq_none_iff (d : Store) (k : String) :
    dictGet d k = none ↔ k ∉ d.map Prod.fst := by
  induction d with
  | nil => simp [dictGet]
  | cons hd tl ih =>
    obtain ⟨k', v'⟩ := hd
    by_cases hk : k = k'
    · simp [dictGet, hk]
    · simp [dictGet, hk, ih]

lemma keys_nodup_snoc (d : Store) (k : String) (v : EntryDetails)
    (hn : (d.map Prod.fst).Nodup) (hk : dictGet d k = none) :
    ((d ++ [(k, v)]).map Prod.fst).Nodup := by
  rw [List.map_append, List.nodup_append]
  refine ⟨hn, List.nodup_singleton k, ?_⟩
  intro a ha hb
  simp only [List.map_cons, List.map_nil, List.mem_singleton] at hb
  subst hb
  exact (dictGet_eq_none_iff d a).mp hk ha

lemma processRow_effect (row : Row) (s s₁ : LoopState) (h : processRow row s = some s₁) :
    (s₁.data = s.data ∧ s₁.entriesAdded = s.entriesAdded) ∨
    (∃ k v, dictGet s.data k = none ∧ s₁.data = s.data ++ [(k, v)] ∧
      s₁.entriesAdded = s.entriesAdded + 1) := by
  rcases row with ⟨bg, td, a⟩
  cases td with
  | none =>
    left
    simp only [processRow] at h
    cases h
    exact ⟨rfl, rfl⟩
  | some cell =>
    cases a with
    | none => simp [processRow] at h
    | some link =>
      simp only [processRow] at h
      cases hdg : dictGet s.data (pyRstrip link) with
      | none =>
        rw [hdg] at h
        simp only [Option.isNone_none, if_true] at h
        cases h
        right
        exact ⟨pyRstrip link, _, hdg, rfl, rfl⟩
      | some w =>
        rw [hdg] at h
        simp only [Option.isNone_some, Bool.false_eq_true, if_false] at h
        cases h
        left
        exact ⟨rfl, rfl⟩

lemma go_effect : ∀ (rows : List Row) (s s₁ : LoopState),
    add_25_go rows s = some s₁ → s.entriesAdded ≤ 24 →
    (∃ ext, s₁.data = s.data ++ ext) ∧
    s₁.data.length + s.entriesAdded = s.data.length + s₁.entriesAdded ∧
    s.entriesAdded ≤ s₁.entriesAdded ∧ s₁.entriesAdded ≤ 25 ∧
    ((s.data.map Prod.fst).Nodup → (s₁.data.map Prod.fst).Nodup) ∧
    (∀ k v, dictGet s.data k = some v → dictGet s₁.data k = some v) := by
  intro rows
  induction rows with
  | nil =>
    intro s s₁ h hle
    simp only [add_25_go] at h
    cases h
    exact ⟨⟨[], (List.append_nil _).symm⟩, rfl, le_refl _, by omega, fun h => h, fun _ _ h => h⟩
  | cons row rest ih =>
    intro s s₁ h hle
    simp only [add_25_go] at h
    cases hp : processRow row s with
    | none => rw [hp] at h; cases h
    | some s' =>
      rw [hp] at h
      dsimp only at h
      have hstep := processRow_effect row s s' hp
      have step_facts :
          (∃ ext, s'.data = s.data ++ ext) ∧
          s'.data.length + s.entriesAdded = s.data.length + s'.entriesAdded ∧
          s.entriesAdded ≤ s'.entriesAdded ∧ s'.entriesAdded ≤ s.entriesAdded + 1 ∧
          ((s.data.map Prod.fst).Nodup → (s'.data.map Prod.fst).Nodup) ∧
          (∀ k v, dictGet s.data k = some v → dictGet s'.data k = some v) := by
        rcases hstep with ⟨hd, he⟩ | ⟨k, v, hk, hd, he⟩
        · exact ⟨⟨[], by rw [hd, List.append_nil]⟩, by rw [hd, he], by omega, by omega,
            fun hn => hd ▸ hn, fun a b hab => hd ▸ hab⟩
        · refine ⟨⟨[(k, v)], hd⟩, by rw [hd, he]; simp; omega, by omega, by omega,
            fun hn => hd ▸ keys_nodup_snoc s.data k v hn hk, ?_⟩
          intro a b hab
          rw [hd, dictGet_append, hab]
      obtain ⟨⟨ext1, hext1⟩, hlen1, hmono1, hbound1, hnd1, hget1⟩ := step_facts
      by_cases hbreak : s'.entriesAdded ≥ 25
      · rw [if_pos hbreak] at h
        cases h
        exact ⟨⟨ext1, hext1⟩, hlen1, hmono1, by omega, hnd1, hget1⟩
      · rw [if_neg hbreak] at h
        have h24 : s'.entriesAdded ≤ 24 := by omega
        obtain ⟨⟨ext2, hext2⟩, hlen2, hmono2, hbound2, hnd2, hget2⟩ := ih s' s₁ h h24
        refine ⟨⟨ext1 ++ ext2, by rw [hext2, hext1, List.append_assoc]⟩, by omega, by omega,
          hbound2, fun hn => hnd2 (hnd1 hn), fun a b hab => hget2 a b (hget1 a b hab)⟩

/-- Claim C2: a single invocation of `add_25_entries` adds at most 25 new records to the store, however many eligible rows remain, and its return value is exactly the number of records added. -/
theorem claim_C2 (rows : List Row) (data d' : Store) (n : Nat)
    (h : add_25_entries rows data = some (d', n)) :
    n ≤ 25 ∧ d'.length = data.length + n := by
  unfold add_25_entries at h
  cases hg : add_25_go rows ⟨0, "", 0, data⟩ with
  | none => rw [hg] at h; cases h
  | some s =>
    rw [hg] at h
    cases h
    obtain ⟨_, hlen, _, hbound, _, _⟩ := go_effect rows ⟨0, "", 0, data⟩ s hg (Nat.zero_le 24)
    have hlen' : s.data.length + 0 = data.length + s.entriesAdded := hlen
    exact ⟨hbound, by omega⟩

theorem claim_C2_witness :
    1 ≤ 25 ∧ ([("Lisa", EntryDetails.mk "1983" "Lisa")] : Store).length = ([] : Store).length + 1 :=
  claim_C2 [⟨"81D666", some ⟨none, "1983"⟩, some "Lisa"⟩] [] _ 1 (by decide)

/-- Claim C3: `add_25_entries` never duplicates an existing product name and never alters an existing record: the prior store survives as an unchanged prefix, key-uniqueness is preserved, and every existing lookup returns the same record afterwards. -/
theorem claim_C3 (rows : List Row) (data d' : Store) (n : Nat)
    (h : add_25_entries rows data = some (d', n)) :
    (∃ ext, d' = data ++ ext) ∧
    ((data.map Prod.fst).Nodup → (d'.map Prod.fst).Nodup) ∧
    (∀ k v, dictGet data k = some v → dictGet d' k = some v) := by
  unfold add_25_entries at h
  cases hg : add_25_go rows ⟨0, "", 0, data⟩ with
  | none => rw [hg] at h; cases h
  | some s =>
    rw [hg] at h
    cases h
    obtain ⟨hext, _, _, _, hnd, hget⟩ := go_effect rows ⟨0, "", 0, data⟩ s hg (Nat.zero_le 24)
    have hext' : ∃ ext, s.data = data ++ ext := hext
    have hnd' : (data.map Prod.fst).Nodup → (s.data.map Prod.fst).Nodup := hnd
    have hget' : ∀ k v, dictGet data k = some v → dictGet s.data k = some v := hget
    exact ⟨hext', hnd', hget'⟩

theorem claim_C3_witness :
    (∃ ext, ([("Lisa", EntryDetails.mk "1900" "X")] : Store) =
      [("Lisa", EntryDetails.mk "1900" "X")] ++ ext) ∧
    ((([("Lisa", EntryDetails.mk "1900" "X")] : Store).map Prod.fst).Nodup →
      (([("Lisa", EntryDetails.mk "1900" "X")] : Store).map Prod.fst).Nodup) ∧
    (∀ k v, dictGet [("Lisa", EntryDetails.mk "1900" "X")] k = some v →
      dictGet [("Lisa", EntryDetails.mk "1900" "X")] k = some v) :=
  claim_C3 [⟨"81D666", some ⟨none, "1983"⟩, some "Lisa"⟩]
    [("Lisa", EntryDetails.mk "1900" "X")] _ 0 (by decide)



lemma insertOrIgnoreProduct_sub (t : List Product) (p : Product) :
    ∃ e, insertOrIgnoreProduct t p = t ++ e := by
  unfold insertOrIgnoreProduct
  by_cases h : t.any (fun q => q.name = p.name)
  · exact ⟨[], by rw [if_pos h, List.append_nil]⟩
  · exact ⟨[p], by rw [if_neg h]⟩

lemma mem_insertOrIgnoreProduct_name (t : List Product) (p : Product) :
    p.name ∈ (insertOrIgnoreProduct t p).map Product.name := by
  unfold insertOrIgnoreProduct
  by_cases h : t.any (fun q => q.name = p.name)
  · rw [if_pos h]
    rw [List.any_eq_true] at h
    obtain ⟨q, hq, hname⟩ := h
    rw [decide_eq_true_eq] at hname
    exact hname ▸ List.mem_map_of_mem Product.name hq
  · rw [if_neg h, List.map_append]
    exact List.mem_append_right _ (by simp)

lemma insertOrIgnoreProduct_nodup (t : List Product) (p : Product)
    (hn : (t.map Product.name).Nodup) :
    ((insertOrIgnoreProduct t p).map Product.name).Nodup := by
  unfold insertOrIgnoreProduct
  by_cases h : t.any (fun q => q.name = p.name)
  · rw [if_pos h]; exact hn
  · rw [if_neg h, List.map_append, List.nodup_append]
    refine ⟨hn, by simp, ?_⟩
    intro a ha hb
    simp only [List.map_cons, List.map_nil, List.mem_singleton] at hb
    subst hb
    rw [List.any_eq_true] at h
    obtain ⟨q, hq, hname⟩ := List.mem_map.mp ha
    exact h ⟨q, hq, by rw [decide_eq_true_eq, hname]⟩

lemma update_grows : ∀ (data : Store) (cats : List (Nat × String)) (t t' : List Product),
    SQL_update_database cats t data = some t' → ∃ ext, t' = t ++ ext := by
  intro data
  induction data with
  | nil =>
    intro cats t t' h
    cases h
    exact ⟨[], (List.append_nil _).symm⟩
  | cons hd rest ih =>
    intro cats t t' h
    obtain ⟨nm, det⟩ := hd
    simp only [SQL_update_database] at h
    cases hl : lookupCategoryId cats det.category with
    | none => rw [hl] at h; cases h
    | some cid =>
      rw [hl] at h
      dsimp only at h
      obtain ⟨ext, hext⟩ := ih cats _ t' h
      obtain ⟨e, he⟩ := insertOrIgnoreProduct_sub t ⟨nm, det.releaseDate, cid⟩
      exact ⟨e ++ ext, by rw [hext, he, List.append_assoc]⟩

lemma update_mem : ∀ (data : Store) (cats : List (Nat × String)) (t t' : List Product),
    SQL_update_database cats t data = some t' →
    ∀ p ∈ data, (∃ cid, lookupCategoryId cats p.2.category = some cid) ∧
      p.1 ∈ t'.map Product.name := by
  intro data
  induction data with
  | nil => intro cats t t' _ p hp; exact absurd hp (List.not_mem_nil p)
  | cons hd rest ih =>
    intro cats t t' h p hp
    obtain ⟨nm, det⟩ := hd
    simp only [SQL_update_database] at h
    cases hl : lookupCategoryId cats det.category with
    | none => rw [hl] at h; cases h
    | some cid =>
      rw [hl] at h
      dsimp only at h
      rcases List.mem_cons.mp hp with heq | hp'
      · subst heq
        refine ⟨⟨cid, hl⟩, ?_⟩
        obtain ⟨ext, hext⟩ := update_grows rest cats _ t' h
        rw [hext, List.map_append]
        exact List.mem_append_left _
          (mem_insertOrIgnoreProduct_name t ⟨nm, det.releaseDate, cid⟩)
      · exact ih cats _ t' h p hp'

lemma update_noop : ∀ (data : Store) (cats : List (Nat × String)) (t : List Product),
    (∀ p ∈ data, (∃ cid, lookupCategoryId cats p.2.category = some cid) ∧
      p.1 ∈ t.map Product.name) →
    SQL_update_database cats t data = some t := by
  intro data
  induction data with
  | nil => intro cats t _; rfl
  | cons hd rest ih =>
    intro cats t h
    obtain ⟨nm, det⟩ := hd
    obtain ⟨⟨cid, hcid⟩, hmem⟩ := h (nm, det) (List.mem_cons_self _ _)
    simp only [SQL_update_database, hcid]
    have hins : insertOrIgnoreProduct t ⟨nm, det.releaseDate, cid⟩ = t := by
      unfold insertOrIgnoreProduct
      rw [if_pos]
      rw [List.any_eq_true]
      obtain ⟨q, hq, hname⟩ := List.mem_map.mp hmem
      exact ⟨q, hq, by rw [decide_eq_true_eq, hname]⟩
    rw [hins]
    exact ih cats t (fun p hp => h p (List.mem_cons_of_mem _ hp))

lemma update_nodup : ∀ (data : Store) (cats : List (Nat × String)) (t t' : List Product),
    SQL_update_database cats t data = some t' →
    (t.map Product.name).Nodup → (t'.map Product.name).Nodup := by
  intro data
  induction data with
  | nil => intro cats t t' h hn; cases h; exact hn
  | cons hd rest ih =>
    intro cats t t' h hn
    obtain ⟨nm, det⟩ := hd
    simp only [SQL_update_database] at h
    cases hl : lookupCategoryId cats det.category with
    | none => rw [hl] at h; cases h
    | some cid =>
      rw [hl] at h
      dsimp only at h
      exact ih cats _ t' h (insertOrIgnoreProduct_nodup t _ hn)

/-- Claim C6: for a record set whose categories all resolve, `SQL_update_database` is idempotent — running it again on its own output returns that output unchanged — existing rows are preserved as an unchanged prefix, name-uniqueness is preserved, and every record's name has a row in the result. -/
theorem claim_C6 (cats : List (Nat × String)) (data : Store) (t t' : List Product)
    (h : SQL_update_database cats t data = some t') :
    SQL_update_database cats t' data = some t' ∧
    (∃ ext, t' = t ++ ext) ∧
    ((t.map Product.name).Nodup → (t'.map Product.name).Nodup) ∧
    (∀ p ∈ data, p.1 ∈ t'.map Product.name) := by
  refine ⟨update_noop data cats t' (update_mem data cats t t' h), update_grows data cats t t' h,
    update_nodup data cats t t' h, fun p hp => (update_mem data cats t t' h p hp).2⟩

theorem claim_C6_witness :
    SQL_update_database [(1, "Lisa")] [⟨"Lisa", "1983", 1⟩] [("Lisa", ⟨"1983", "Lisa"⟩)]
      = some [⟨"Lisa", "1983", 1⟩] ∧
    (∃ ext, [Product.mk "Lisa" "1983" 1] = [] ++ ext) ∧
    ((([] : List Product).map Product.name).Nodup →
      (([Product.mk "Lisa" "1983" 1]).map Product.name).Nodup) ∧
    (∀ p ∈ ([("Lisa", ⟨"1983", "Lisa"⟩)] : Store),
      p.1 ∈ ([Product.mk "Lisa" "1983" 1]).map Product.name) :=
  claim_C6 [(1, "Lisa")] [("Lisa", ⟨"1983", "Lisa"⟩)] [] [⟨"Lisa", "1983", 1⟩] (by decide)



lemma processRow_plain (bg nm t : String) (k : Nat) (d : String) (added : Nat) (data : Store)
    (hfresh : dictGet data (pyRstrip nm) = none) :
    processRow (mkRow bg (nm, t)) ⟨k, d, added, data⟩ =
      some ⟨k - 1, d, added + 1,
        data ++ [(pyRstrip nm,
          ⟨if k ≠ 0 then d else pyRstrip t, color_code_lookup (normColor bg)⟩)]⟩ := by
  simp only [processRow, mkRow, hfresh]
  by_cases hk : k = 0
  · subst hk; simp
  · simp [hk]

lemma processRow_span (bg : String) (n : Nat) (d nm : String) (s : LoopState)
    (hn : n ≠ 0) (hfresh : dictGet s.data (pyRstrip nm) = none) :
    processRow (spanRow bg n d nm) s =
      some ⟨n - 1, pyRstrip d, s.entriesAdded + 1,
        s.data ++ [(pyRstrip nm, ⟨pyRstrip d, color_code_lookup (normColor bg)⟩)]⟩ := by
  simp only [processRow, spanRow, hfresh]
  simp [hn]

lemma go_plain (bg : String) : ∀ (pairs : List (String × String)) (k : Nat) (d : String)
    (added : Nat) (data : Store),
    added + pairs.length ≤ 25 →
    (∀ p ∈ pairs, dictGet data (pyRstrip p.1) = none) →
    (pairs.map (fun p => pyRstrip p.1)).Nodup →
    add_25_go (pairs.map (mkRow bg)) ⟨k, d, added, data⟩ =
      some ⟨k - pairs.length, d, added + pairs.length,
        data ++ expectedEntries (color_code_lookup (normColor bg)) k d pairs⟩ := by
  intro pairs
  induction pairs with
  | nil =>
    intro k d added data _ _ _
    simp [add_25_go, expectedEntries]
  | cons hd rest ih =>
    intro k d added data hlen hfresh hnodup
    obtain ⟨nm, t⟩ := hd
    have hfresh0 : dictGet data (pyRstrip nm) = none :=
      hfresh (nm, t) (List.mem_cons_self _ _)
    simp only [List.map_cons, add_25_go,
      processRow_plain bg nm t k d added data hfresh0]
    dsimp only
    have hlen' : added + 1 + rest.length ≤ 25 := by
      simp only [List.length_cons] at hlen; omega
    have hne : ∀ p ∈ rest, pyRstrip p.1 ≠ pyRstrip nm := by
      intro p hp
      simp only [List.map_cons, List.nodup_cons] at hnodup
      intro heq
      exact hnodup.1 (heq ▸ List.mem_map_of_mem (fun q => pyRstrip q.1) hp)
    have hfresh' : ∀ p ∈ rest,
        dictGet (data ++ [(pyRstrip nm,
          ⟨if k ≠ 0 then d else pyRstrip t, color_code_lookup (normColor bg)⟩)])
          (pyRstrip p.1) = none := by
      intro p hp
      rw [dictGet_append, hfresh p (List.mem_cons_of_mem _ hp)]
      simp [dictGet, hne p hp]
    have hnodup' : (rest.map (fun p => pyRstrip p.1)).Nodup := by
      simp only [List.map_cons, List.nodup_cons] at hnodup
      exact hnodup.2
    by_cases hbr : added + 1 ≥ 25
    · have hrest : rest = [] := by
        simp only [List.length_cons] at hlen
        exact List.length_eq_zero.mp (by omega)
      subst hrest
      rw [if_pos hbr]
      simp [expectedEntries]
    · rw [if_neg hbr, ih (k - 1) d (added + 1) _ hlen' hfresh' hnodup']
      simp only [expectedEntries, List.length_cons]
      have h1 : k - 1 - rest.length = k - (rest.length + 1) := by omega
      have h2 : added + 1 + rest.length = added + (rest.length + 1) := by omega
      rw [h1, h2, List.append_assoc]
      rfl

lemma expectedEntries_getD (cat : String) : ∀ (pairs : List (String × String)) (k j : Nat)
    (d : String), j < pairs.length →
    ((expectedEntries cat k d pairs).getD j ("", ⟨"", ""⟩)).2.releaseDate =
      if j < k then d else pyRstrip ((pairs.getD j ("", "")).2) := by
  intro pairs
  induction pairs with
  | nil => intro k j d h; simp at h
  | cons hd rest ih =>
    intro k j d h
    obtain ⟨nm, t⟩ := hd
    cases j with
    | zero =>
      simp only [expectedEntries, List.getD_cons_zero]
      by_cases hk : k = 0
      · subst hk; simp
      · simp [hk, Nat.pos_of_ne_zero hk]
    | succ j' =>
      simp only [expectedEntries, List.getD_cons_succ]
      rw [ih (k - 1) j' d (by simpa using Nat.lt_of_succ_lt_succ (by simpa using h))]
      have hiff : (j' < k - 1) ↔ (j' + 1 < k) := by omega
      by_cases hj : j' < k - 1
      · rw [if_pos hj, if_pos (hiff.mp hj)]
      · rw [if_neg hj, if_neg (fun hh => hj (hiff.mpr hh))]

/-- Claim C1: from an empty store, a row declaring span count `N` (with trimmed cell text as the carried date) followed by name-bearing rowspan-free rows produces a record for the span row and for each following row; the first `N` records all carry the span row's trimmed date, and the rows after the span is exhausted use their own trimmed first-cell text as date (stated for distinct fresh names within the 25-entry cap). -/
theorem claim_C1 (bg d nm0 : String) (N : Nat) (pairs : List (String × String))
    (hN : 1 ≤ N) (hlen : pairs.length + 1 ≤ 25)
    (hnodup : (pyRstrip nm0 :: pairs.map (fun p => pyRstrip p.1)).Nodup) :
    add_25_entries (spanRow bg N d nm0 :: pairs.map (mkRow bg)) [] =
      some ((pyRstrip nm0, ⟨pyRstrip d, color_code_lookup (normColor bg)⟩) ::
        expectedEntries (color_code_lookup (normColor bg)) (N - 1) (pyRstrip d) pairs,
        pairs.length + 1) ∧
    (∀ j, j < pairs.length →
      ((expectedEntries (color_code_lookup (normColor bg)) (N - 1) (pyRstrip d) pairs).getD j
          ("", ⟨"", ""⟩)).2.releaseDate =
        if j < N - 1 then pyRstrip d else pyRstrip ((pairs.getD j ("", "")).2)) := by
  constructor
  · have hN' : N ≠ 0 := by omega
    have hfresh0 : dictGet ([] : Store) (pyRstrip nm0) = none := rfl
    unfold add_25_entries
    simp only [add_25_go, processRow_span bg N d nm0 ⟨0, "", 0, []⟩ hN' hfresh0]
    dsimp only
    rw [if_neg (by omega)]
    have hnodup' : (pairs.map (fun p => pyRstrip p.1)).Nodup := (List.nodup_cons.mp hnodup).2
    have hfresh' : ∀ p ∈ pairs,
        dictGet ([] ++ [(pyRstrip nm0, ⟨pyRstrip d, color_code_lookup (normColor bg)⟩)])
          (pyRstrip p.1) = none := by
      intro p hp
      have hne : pyRstrip p.1 ≠ pyRstrip nm0 := by
        intro heq
        exact (List.nodup_cons.mp hnodup).1
          (heq ▸ List.mem_map_of_mem (fun q => pyRstrip q.1) hp)
      simp [dictGet, hne]
    rw [go_plain bg pairs (N - 1) (pyRstrip d) 1 _ (by omega) hfresh' hnodup']
    simp [Nat.add_comm]
  · intro j hj
    exact expectedEntries_getD (color_code_lookup (normColor bg)) pairs (N - 1) j (pyRstrip d) hj

theorem claim_C1_witness :
    add_25_entries (spanRow "81D666" 2 "1983 " "Lisa" :: [("A", "1990"), ("B", "1991")].map
        (mkRow "81D666")) [] =
      some ((pyRstrip "Lisa", ⟨pyRstrip "1983 ", color_code_lookup (normColor "81D666")⟩) ::
        expectedEntries (color_code_lookup (normColor "81D666")) (2 - 1) (pyRstrip "1983 ")
          [("A", "1990"), ("B", "1991")], [("A", "1990"), ("B", "1991")].length + 1) ∧
    (∀ j, j < [("A", "1990"), ("B", "1991")].length →
      ((expectedEntries (color_code_lookup (normColor "81D666")) (2 - 1) (pyRstrip "1983 ")
          [("A", "1990"), ("B", "1991")]).getD j ("", ⟨"", ""⟩)).2.releaseDate =
        if j < 2 - 1 then pyRstrip "1983 "
        else pyRstrip (([("A", "1990"), ("B", "1991")].getD j ("", "")).2)) :=
  claim_C1 "81D666" "1983 " "Lisa" 2 [("A", "1990"), ("B", "1991")] (by decide) (by decide)
    (by decide)

end AppleScrape
